import Mathlib

/-
Verification of the Form-Automation engine (TypeScript sources under src/).

Shallow embedding conventions:
  - JavaScript strings are modelled as lists of Unicode code points
    (`JSString := List Nat`); `jstr` decodes a Lean string literal into
    this model.
  - JavaScript regular-expression replacements used by the sources
    (`\s+ -> _`, `[\r\n]+ -> space`, `_{2,} -> _`, `^_|_$ -> empty`) are
    modelled by explicit structural functions on code-point lists.
  - `String.prototype.toLowerCase` is modelled on its ASCII fragment
    (the only fragment the embedded call sites depend on).
  - Stateful loops (the submit/retry state machine, the response
    collection loop) are modelled as pure functions over an environment
    describing the observed page outcomes and the sequence of answers
    supplied by the human channel.
-/

namespace FormAutomation

/-- A JavaScript string, as the list of its Unicode code points. -/
abbrev JSString := List Nat

/-- Decode a Lean string literal into the code-point model. -/
def jstr (s : String) : JSString := s.data.map Char.toNat

/-- ECMAScript WhiteSpace and LineTerminator code points (the set matched
by the regular-expression class backslash-s). -/
def isJsWhitespace (n : Nat) : Bool :=
  n == 0x9 || n == 0xA || n == 0xB || n == 0xC || n == 0xD || n == 0x20 ||
  n == 0xA0 || n == 0x1680 || (decide (0x2000 ≤ n) && decide (n ≤ 0x200A)) ||
  n == 0x2028 || n == 0x2029 || n == 0x202F || n == 0x205F || n == 0x3000 ||
  n == 0xFEFF

/-- Model of `String.prototype.trim`. -/
def jsTrim (s : JSString) : JSString :=
  ((s.dropWhile isJsWhitespace).reverse.dropWhile isJsWhitespace).reverse

/-- ASCII fragment of `String.prototype.toLowerCase`, on one code point. -/
def jsToLowerCP (n : Nat) : Nat := if 65 ≤ n ∧ n ≤ 90 then n + 32 else n

/-- ASCII fragment of `String.prototype.toLowerCase`. -/
def jsToLower (s : JSString) : JSString := s.map jsToLowerCP

/-- Whether `s` starts with `pre` (code-point-wise). -/
def jsStartsWith : JSString → JSString → Bool
  | _, [] => true
  | [], _ :: _ => false
  | a :: s, b :: t => a == b && jsStartsWith s t

/-- Model of `String.prototype.includes`. -/
def jsIncludes (hay needle : JSString) : Bool :=
  hay.tails.any fun t => jsStartsWith t needle

/-- Replace every maximal run of code points satisfying `p` by the single
code point `r`.  The flag records whether the previous input code point
belonged to a run.  This is the semantics of a global replacement of the
regular expression "(p)+" by `r`. -/
def replaceRunsAux (p : Nat → Bool) (r : Nat) : Bool → JSString → JSString
  | _, [] => []
  | inRun, c :: cs =>
    if p c then
      if inRun then replaceRunsAux p r true cs
      else r :: replaceRunsAux p r true cs
    else c :: replaceRunsAux p r false cs

/-- Global replacement of each maximal run of `p`-code-points by `r`. -/
def replaceRuns (p : Nat → Bool) (r : Nat) (s : JSString) : JSString :=
  replaceRunsAux p r false s

/-- Code points kept by the sanitizer character class
(x20-x7E and A0-FFFF). -/
def isPrintableCP (n : Nat) : Bool :=
  (decide (0x20 ≤ n) && decide (n ≤ 0x7E)) ||
  (decide (0xA0 ≤ n) && decide (n ≤ 0xFFFF))

/-- `FormUtils.sanitizeInput`: trim, collapse CR/LF runs to a space,
collapse whitespace runs to a space, drop non-printable code points. -/
def sanitizeInput (s : JSString) : JSString :=
  ((replaceRuns (fun n => n == 0xD || n == 0xA) 0x20 (jsTrim s))
    |> replaceRuns isJsWhitespace 0x20).filter isPrintableCP

/-- Word code points kept by the removal of the class [^a-zA-Z0-9_]. -/
def isWordCP (n : Nat) : Bool :=
  (decide (97 ≤ n) && decide (n ≤ 122)) ||
  (decide (65 ≤ n) && decide (n ≤ 90)) ||
  (decide (48 ≤ n) && decide (n ≤ 57)) || n == 95

/-- Lowercase word code points: lowercase ASCII letters, digits, underscore. -/
def isLowerWordCP (n : Nat) : Bool :=
  (decide (97 ≤ n) && decide (n ≤ 122)) ||
  (decide (48 ≤ n) && decide (n ≤ 57)) || n == 95

/-- Removal of one leading underscore, as matched by the anchor pattern
caret-underscore of the final replacement in the source. -/
def stripLeadingUnderscore : JSString → JSString
  | [] => []
  | a :: t => if a == 95 then t else a :: t

/-- Removal of one trailing underscore, as matched by the anchor pattern
underscore-dollar of the final replacement in the source. -/
def dropTrailingUnderscore : JSString → JSString
  | [] => []
  | [c] => if c == 95 then [] else [c]
  | c :: c2 :: t => c :: dropTrailingUnderscore (c2 :: t)

/-- `FormUtils.generateFieldNameFromLabel`: lowercase, whitespace runs to
underscore, remove non-word code points, collapse underscore runs, strip
one leading and one trailing underscore. -/
def generateFieldNameFromLabel (label : JSString) : JSString :=
  dropTrailingUnderscore (stripLeadingUnderscore
    (replaceRuns (fun n => n == 95) 95
      ((replaceRuns isJsWhitespace 95 (jsToLower label)).filter isWordCP)))

/-- Whether the list contains two adjacent underscores. -/
def hasDoubleUS : JSString → Bool
  | [] => false
  | [_] => false
  | a :: b :: t => (a == 95 && b == 95) || hasDoubleUS (b :: t)

lemma mem_replaceRunsAux {p : Nat → Bool} {r c : Nat} (s : JSString) (b : Bool)
    (h : c ∈ replaceRunsAux p r b s) : c = r ∨ (c ∈ s ∧ p c = false) := by
  induction s generalizing b with
  | nil => simp [replaceRunsAux] at h
  | cons a t ih =>
    by_cases hp : p a
    · cases b with
      | true =>
        simp [replaceRunsAux, hp] at h
        rcases ih true h with h1 | ⟨h2, h3⟩
        · exact Or.inl h1
        · exact Or.inr ⟨List.mem_cons_of_mem _ h2, h3⟩
      | false =>
        simp [replaceRunsAux, hp] at h
        rcases h with h1 | h1
        · exact Or.inl h1
        · rcases ih true h1 with h2 | ⟨h2, h3⟩
          · exact Or.inl h2
          · exact Or.inr ⟨List.mem_cons_of_mem _ h2, h3⟩
    · simp [replaceRunsAux, hp] at h
      rcases h with h1 | h1
      · subst h1
        exact Or.inr ⟨List.mem_cons_self _ _, by simpa using hp⟩
      · rcases ih false h1 with h2 | ⟨h2, h3⟩
        · exact Or.inl h2
        · exact Or.inr ⟨List.mem_cons_of_mem _ h2, h3⟩

lemma head_collapseAux_true (s : JSString) :
    (replaceRunsAux (fun n => n == 95) 95 true s).head? ≠ some 95 := by
  induction s with
  | nil => simp [replaceRunsAux]
  | cons a t ih =>
    by_cases hp : a = 95
    · simpa [replaceRunsAux, hp] using ih
    · simp [replaceRunsAux, hp]

lemma hasDoubleUS_cons_of (a : Nat) (l : JSString) (h1 : a = 95 → l.head? ≠ some 95)
    (h2 : hasDoubleUS l = false) : hasDoubleUS (a :: l) = false := by
  cases l with
  | nil => simp [hasDoubleUS]
  | cons b t =>
    simp only [hasDoubleUS, Bool.or_eq_false_iff, Bool.and_eq_false_iff]
    refine ⟨?_, h2⟩
    by_cases ha : a = 95
    · have hb := h1 ha
      right
      simpa using fun hb2 => hb (by simp [hb2])
    · left
      simpa using ha

lemma collapse_noDouble (s : JSString) (b : Bool) :
    hasDoubleUS (replaceRunsAux (fun n => n == 95) 95 b s) = false := by
  induction s generalizing b with
  | nil => cases b <;> simp [replaceRunsAux, hasDoubleUS]
  | cons a t ih =>
    by_cases hp : a = 95
    · cases b with
      | true => simpa [replaceRunsAux, hp] using ih true
      | false =>
        simp only [replaceRunsAux, hp, beq_self_eq_true, if_true, Bool.false_eq_true,
          if_false]
        exact hasDoubleUS_cons_of _ _ (fun _ => head_collapseAux_true t) (ih true)
    · simp only [replaceRunsAux, (by simpa using hp : (a == 95) = false), if_false]
      exact hasDoubleUS_cons_of _ _ (fun h => absurd h hp) (ih false)

lemma hasDoubleUS_tail {a : Nat} {t : JSString} (h : hasDoubleUS (a :: t) = false) :
    hasDoubleUS t = false := by
  cases t with
  | nil => simp [hasDoubleUS]
  | cons b t2 =>
    simp only [hasDoubleUS, Bool.or_eq_false_iff] at h
    exact h.2

lemma mem_stripLeadingUnderscore {c : Nat} {s : JSString}
    (h : c ∈ stripLeadingUnderscore s) : c ∈ s := by
  cases s with
  | nil => simp [stripLeadingUnderscore] at h
  | cons a t =>
    by_cases ha : a = 95
    · simp only [stripLeadingUnderscore, ha, beq_self_eq_true, if_true] at h
      exact List.mem_cons_of_mem _ h
    · simpa only [stripLeadingUnderscore, (by simpa using ha : (a == 95) = false),
        if_false] using h

lemma mem_dropTrailingUnderscore {c : Nat} : ∀ {s : JSString},
    c ∈ dropTrailingUnderscore s → c ∈ s
  | [], h => by simp [dropTrailingUnderscore] at h
  | [a], h => by
    by_cases ha : a = 95
    · simp [dropTrailingUnderscore, ha] at h
    · simpa only [dropTrailingUnderscore, (by simpa using ha : (a == 95) = false),
        if_false] using h
  | a :: b :: t, h => by
    simp only [dropTrailingUnderscore, List.mem_cons] at h
    rcases h with h | h
    · simp [h]
    · exact List.mem_cons_of_mem _ (mem_dropTrailingUnderscore h)

lemma noDouble_stripLeadingUnderscore {s : JSString} (h : hasDoubleUS s = false) :
    hasDoubleUS (stripLeadingUnderscore s) = false := by
  cases s with
  | nil => simpa [stripLeadingUnderscore] using h
  | cons a t =>
    by_cases ha : a = 95
    · simp only [stripLeadingUnderscore, ha, beq_self_eq_true, if_true]
      exact hasDoubleUS_tail h
    · simpa only [stripLeadingUnderscore, (by simpa using ha : (a == 95) = false),
        if_false] using h

lemma head_dropTrailingUnderscore (s : JSString) :
    (dropTrailingUnderscore s).head? = s.head? ∨ dropTrailingUnderscore s = [] := by
  cases s with
  | nil => simp [dropTrailingUnderscore]
  | cons a t =>
    cases t with
    | nil =>
      by_cases ha : a = 95 <;> simp [dropTrailingUnderscore, ha]
    | cons b t2 => simp [dropTrailingUnderscore]

lemma noDouble_dropTrailingUnderscore : ∀ {s : JSString}, hasDoubleUS s = false →
    hasDoubleUS (dropTrailingUnderscore s) = false
  | [], h => by simpa [dropTrailingUnderscore] using h
  | [a], h => by
    by_cases ha : a = 95 <;>
      simp [dropTrailingUnderscore, ha, hasDoubleUS]
  | a :: b :: t, h => by
    simp only [dropTrailingUnderscore]
    have ht := noDouble_dropTrailingUnderscore (hasDoubleUS_tail h)
    refine hasDoubleUS_cons_of _ _ (fun ha => ?_) ht
    have hb : b ≠ 95 := by
      subst ha
      simp only [hasDoubleUS, Bool.or_eq_false_iff, Bool.and_eq_false_iff] at h
      rcases h.1 with h1 | h1
      · simp at h1
      · intro hb
        rw [hb] at h1
        simp at h1
    rcases head_dropTrailingUnderscore (b :: t) with hh | hh
    · rw [hh]
      simp [hb]
    · rw [hh]
      simp

lemma head_stripLeadingUnderscore {s : JSString} (h : hasDoubleUS s = false) :
    (stripLeadingUnderscore s).head? ≠ some 95 := by
  cases s with
  | nil => simp [stripLeadingUnderscore]
  | cons a t =>
    by_cases ha : a = 95
    · simp only [stripLeadingUnderscore, ha, beq_self_eq_true, if_true]
      cases t with
      | nil => simp
      | cons b t2 =>
        simp only [ha, hasDoubleUS, Bool.or_eq_false_iff, Bool.and_eq_false_iff] at h
        rcases h.1 with h1 | h1
        · simp at h1
        · simpa using fun hb => by simp [hb] at h1
    · simp only [stripLeadingUnderscore]
      simp [ha]

lemma last_dropTrailingUnderscore : ∀ {s : JSString}, hasDoubleUS s = false →
    (dropTrailingUnderscore s).getLast? ≠ some 95
  | [], _ => by simp [dropTrailingUnderscore]
  | [a], _ => by
    by_cases ha : a = 95 <;> simp [dropTrailingUnderscore, ha]
  | a :: b :: t, h => by
    simp only [dropTrailingUnderscore]
    cases hd : dropTrailingUnderscore (b :: t) with
    | nil =>
      -- then b :: t = [95], so by no-double a is not an underscore
      have hb : b = 95 ∧ t = [] := by
        cases t with
        | nil =>
          by_cases hb : b = 95
          · exact ⟨hb, rfl⟩
          · simp [dropTrailingUnderscore, hb] at hd
        | cons y t2 => simp [dropTrailingUnderscore] at hd
      simp only [List.getLast?_singleton, ne_eq, Option.some.injEq]
      intro ha
      simp only [ha, hb.1, hasDoubleUS, Bool.or_eq_false_iff, Bool.and_eq_false_iff] at h
      rcases h.1 with h1 | h1 <;> simp at h1
    | cons x l =>
      have ht := last_dropTrailingUnderscore (s := b :: t) (hasDoubleUS_tail h)
      rw [hd] at ht
      rw [List.getLast?_cons_cons]
      exact ht

/-- Claim C9: every field name generated from a label consists only of
lowercase ASCII letters, digits, and underscores, has no two consecutive
underscores, and neither starts nor ends with an underscore. -/
theorem c9_generateFieldNameFromLabel_shape (label : JSString) :
    (∀ c ∈ generateFieldNameFromLabel label, isLowerWordCP c = true) ∧
    hasDoubleUS (generateFieldNameFromLabel label) = false ∧
    (generateFieldNameFromLabel label).head? ≠ some 95 ∧
    (generateFieldNameFromLabel label).getLast? ≠ some 95 := by
  unfold generateFieldNameFromLabel
  set w := (replaceRuns isJsWhitespace 95 (jsToLower label)).filter isWordCP with hw
  have hnd : hasDoubleUS (replaceRuns (fun n => n == 95) 95 w) = false :=
    collapse_noDouble w false
  have hnds : hasDoubleUS (stripLeadingUnderscore (replaceRuns (fun n => n == 95) 95 w))
      = false := noDouble_stripLeadingUnderscore hnd
  refine ⟨?_, noDouble_dropTrailingUnderscore hnds, ?_, last_dropTrailingUnderscore hnds⟩
  · intro c hc
    have hc1 : c ∈ stripLeadingUnderscore (replaceRuns (fun n => n == 95) 95 w) :=
      mem_dropTrailingUnderscore hc
    have hc2 : c ∈ replaceRuns (fun n => n == 95) 95 w := mem_stripLeadingUnderscore hc1
    have hc3 := mem_replaceRunsAux w false hc2
    have hcw : c = 95 ∨ c ∈ w := by
      rcases hc3 with h | ⟨h, _⟩
      · exact Or.inl h
      · exact Or.inr h
    rcases hcw with h95 | hmem
    · simp [isLowerWordCP, h95]
    · rw [hw, List.mem_filter] at hmem
      obtain ⟨hmem1, hword⟩ := hmem
      have hc4 := mem_replaceRunsAux _ false hmem1
      have : c = 95 ∨ ¬(65 ≤ c ∧ c ≤ 90) := by
        rcases hc4 with h | ⟨h, _⟩
        · exact Or.inl h
        · right
          simp only [jsToLower, List.mem_map] at h
          obtain ⟨n, _, hn⟩ := h
          subst hn
          unfold jsToLowerCP
          split <;> omega
      rcases this with h95 | hnup
      · simp [isLowerWordCP, h95]
      · simp only [isWordCP, Bool.or_eq_true, Bool.and_eq_true, decide_eq_true_eq,
          beq_iff_eq] at hword
        simp only [isLowerWordCP, Bool.or_eq_true, Bool.and_eq_true, decide_eq_true_eq,
          beq_iff_eq]
        omega
  · rcases head_dropTrailingUnderscore
        (stripLeadingUnderscore (replaceRuns (fun n => n == 95) 95 w)) with h | h
    · rw [h]
      exact head_stripLeadingUnderscore hnd
    · simp [h]

/-- Closed instance of c9_generateFieldNameFromLabel_shape: the first code
point generated from the label Hi is a lowercase word code point. -/
theorem c9_generateFieldNameFromLabel_witness : isLowerWordCP 104 = true :=
  (c9_generateFieldNameFromLabel_shape (jstr "Hi")).1 104 (by decide)

/-- A detected validation error, mirroring IValidationError. -/
structure VError where
  fieldName : JSString
  fieldLabel : JSString
  errorMessage : JSString
  fieldType : JSString
  currentValue : JSString
  deriving DecidableEq

/-- The template-string deduplication key of removeDuplicateErrors:
fieldName, a hyphen, fieldLabel. -/
def errorKey (e : VError) : JSString := e.fieldName ++ jstr "-" ++ e.fieldLabel

/-- Body of ValidationService.removeDuplicateErrors: a filter over the
error list keeping an entry only when its key has not been seen before. -/
def removeDuplicateErrorsGo (seen : List JSString) : List VError → List VError
  | [] => []
  | e :: rest =>
    if errorKey e ∈ seen then removeDuplicateErrorsGo seen rest
    else e :: removeDuplicateErrorsGo (errorKey e :: seen) rest

/-- ValidationService.removeDuplicateErrors. -/
def removeDuplicateErrors (errors : List VError) : List VError :=
  removeDuplicateErrorsGo [] errors

lemma removeDuplicateErrorsGo_sublist (l : List VError) (seen : List JSString) :
    (removeDuplicateErrorsGo seen l).Sublist l := by
  induction l generalizing seen with
  | nil => simp [removeDuplicateErrorsGo]
  | cons e rest ih =>
    unfold removeDuplicateErrorsGo
    split
    · exact (ih seen).cons _
    · exact (ih (errorKey e :: seen)).cons₂ _

lemma removeDuplicateErrorsGo_keys (l : List VError) (seen : List JSString) :
    (removeDuplicateErrorsGo seen l).Pairwise (fun a b => errorKey a ≠ errorKey b) ∧
    (∀ e ∈ removeDuplicateErrorsGo seen l, errorKey e ∉ seen) := by
  induction l generalizing seen with
  | nil => simp [removeDuplicateErrorsGo]
  | cons e rest ih =>
    unfold removeDuplicateErrorsGo
    split
    · exact ih seen
    · next hnot =>
      obtain ⟨ihp, ihs⟩ := ih (errorKey e :: seen)
      refine ⟨List.Pairwise.cons (fun x hx => ?_) ihp, ?_⟩
      · have := ihs x hx
        simp only [List.mem_cons, not_or] at this
        exact fun hkey => this.1 hkey.symm
      · intro x hx
        rcases List.mem_cons.mp hx with h | h
        · subst h; exact hnot
        · have := ihs x h
          simp only [List.mem_cons, not_or] at this
          exact this.2

lemma removeDuplicateErrorsGo_covers (l : List VError) (seen : List JSString)
    (e : VError) (he : e ∈ l) :
    errorKey e ∈ seen ∨ ∃ e2 ∈ removeDuplicateErrorsGo seen l, errorKey e2 = errorKey e := by
  induction l generalizing seen with
  | nil => simp at he
  | cons x rest ih =>
    unfold removeDuplicateErrorsGo
    rcases List.mem_cons.mp he with h | h
    · subst h
      split
      · next hin => exact Or.inl hin
      · exact Or.inr ⟨e, List.mem_cons_self _ _, rfl⟩
    · split
      · exact ih seen h
      · rcases ih (errorKey x :: seen) h with hmem | ⟨e2, h2, h3⟩
        · rcases List.mem_cons.mp hmem with hk | hk
          · exact Or.inr ⟨x, List.mem_cons_self _ _, hk.symm⟩
          · exact Or.inl hk
        · exact Or.inr ⟨e2, List.mem_cons_of_mem _ h2, h3⟩

lemma removeDuplicateErrorsGo_first : ∀ (l1 : List VError) (e : VError)
    (l2 : List VError) (seen : List JSString),
    (∀ x ∈ l1, errorKey x ≠ errorKey e) → errorKey e ∉ seen →
    e ∈ removeDuplicateErrorsGo seen (l1 ++ e :: l2)
  | [], e, l2, seen, _, hseen => by
    unfold removeDuplicateErrorsGo
    simp only [List.nil_append]
    rw [if_neg hseen]
    exact List.mem_cons_self _ _
  | x :: l1, e, l2, seen, hfst, hseen => by
    simp only [List.cons_append]
    unfold removeDuplicateErrorsGo
    split
    · exact removeDuplicateErrorsGo_first l1 e l2 seen
        (fun y hy => hfst y (List.mem_cons_of_mem _ hy)) hseen
    · refine List.mem_cons_of_mem _ (removeDuplicateErrorsGo_first l1 e l2 _
        (fun y hy => hfst y (List.mem_cons_of_mem _ hy)) ?_)
      simp only [List.mem_cons, not_or]
      exact ⟨fun hk => hfst x (List.mem_cons_self _ _) hk.symm, hseen⟩

/-- Demonstration errors whose distinct (fieldName, fieldLabel) pairs share
one concatenated deduplication key. -/
def dupDemo1 : VError :=
  ⟨jstr "a-b", jstr "c", jstr "first message", jstr "text", jstr ""⟩

/-- Second demonstration error, same concatenated key as dupDemo1. -/
def dupDemo2 : VError :=
  ⟨jstr "a", jstr "b-c", jstr "second message", jstr "text", jstr ""⟩

/-- Claim C7 is false as stated: the deduplication key is the single string
fieldName-hyphen-fieldLabel, so two errors with distinct
(fieldName, fieldLabel) pairs can collide; here the first occurrence of the
pair (a, b-c) is dropped even though no earlier entry has that pair. -/
theorem c7_counterexample :
    removeDuplicateErrors [dupDemo1, dupDemo2] = [dupDemo1] ∧
    dupDemo2.fieldName ≠ dupDemo1.fieldName ∧
    dupDemo2 ∉ removeDuplicateErrors [dupDemo1, dupDemo2] := by decide

/-- Claim C7 amended: within one detection pass the detector output has at
most one entry per concatenated key fieldName-hyphen-fieldLabel (hence at
most one entry per (fieldName, fieldLabel) pair); the output is an
order-preserving sublist of the input; every input key is represented; and
any entry whose key is not carried by any earlier entry is kept. -/
theorem c7_removeDuplicateErrors_dedup (l : List VError) :
    (removeDuplicateErrors l).Pairwise (fun a b => errorKey a ≠ errorKey b) ∧
    (removeDuplicateErrors l).Pairwise
      (fun a b => ¬(a.fieldName = b.fieldName ∧ a.fieldLabel = b.fieldLabel)) ∧
    (removeDuplicateErrors l).Sublist l ∧
    (∀ e ∈ l, ∃ e2 ∈ removeDuplicateErrors l, errorKey e2 = errorKey e) ∧
    (∀ (l1 l2 : List VError) (e : VError), l = l1 ++ e :: l2 →
      (∀ x ∈ l1, errorKey x ≠ errorKey e) → e ∈ removeDuplicateErrors l) := by
  obtain ⟨hp, _⟩ := removeDuplicateErrorsGo_keys l []
  refine ⟨hp, ?_, removeDuplicateErrorsGo_sublist l [], ?_, ?_⟩
  · exact hp.imp fun h ⟨h1, h2⟩ => h (by simp [errorKey, h1, h2])
  · intro e he
    rcases removeDuplicateErrorsGo_covers l [] e he with h | h
    · simp at h
    · exact h
  · intro l1 l2 e hl hfst
    subst hl
    exact removeDuplicateErrorsGo_first l1 e l2 [] hfst (by simp)

/-- Closed instance of c7_removeDuplicateErrors_dedup: an error whose key
is unprecedented is kept by the deduplication. -/
theorem c7_removeDuplicateErrors_witness :
    dupDemo1 ∈ removeDuplicateErrors [dupDemo1] :=
  (c7_removeDuplicateErrors_dedup [dupDemo1]).2.2.2.2 [] [] dupDemo1 rfl (by simp)

/-- Abstract state of the rendered page as observed by
ValidationService.isFormSubmitted: the number of elements matching the
success-indicator selectors, the current URL, the result of
detectValidationErrors, and the number of form elements on the page. -/
structure PageState where
  successIndicators : Nat
  url : JSString
  detectedErrors : List VError
  formElements : Nat

/-- ValidationService.isFormSubmitted: success indicator present, else a
success-like URL token, else no detected errors and no form element left. -/
def isFormSubmitted (p : PageState) : Bool :=
  if p.successIndicators > 0 then true
  else if jsIncludes p.url (jstr "success") || jsIncludes p.url (jstr "thank") ||
      jsIncludes p.url (jstr "submitted") then true
  else p.detectedErrors.length == 0 && p.formElements == 0

/-- Claim C2: isFormSubmitted returns true iff a success indicator is
present, or the URL contains one of the success-like tokens, or the
detected error set is empty and no form element remains; in particular it
is true whenever a success indicator is present, and false when errors
remain and none of the other conditions hold. -/
theorem c2_isFormSubmitted_iff (p : PageState) :
    (isFormSubmitted p = true ↔
      0 < p.successIndicators ∨
      (jsIncludes p.url (jstr "success") = true ∨ jsIncludes p.url (jstr "thank") = true ∨
        jsIncludes p.url (jstr "submitted") = true) ∨
      (p.detectedErrors = [] ∧ p.formElements = 0)) ∧
    (0 < p.successIndicators → isFormSubmitted p = true) ∧
    (p.detectedErrors ≠ [] → p.successIndicators = 0 →
      jsIncludes p.url (jstr "success") = false → jsIncludes p.url (jstr "thank") = false →
      jsIncludes p.url (jstr "submitted") = false → isFormSubmitted p = false) := by
  have hiff : isFormSubmitted p = true ↔
      0 < p.successIndicators ∨
      (jsIncludes p.url (jstr "success") = true ∨ jsIncludes p.url (jstr "thank") = true ∨
        jsIncludes p.url (jstr "submitted") = true) ∨
      (p.detectedErrors = [] ∧ p.formElements = 0) := by
    unfold isFormSubmitted
    split_ifs with h1 h2
    · simp only [true_iff]
      exact Or.inl h1
    · simp only [true_iff]
      simp only [Bool.or_eq_true] at h2
      exact Or.inr (Or.inl (by tauto))
    · simp only [Bool.or_eq_true, not_or, Bool.not_eq_true] at h2
      simp only [Bool.and_eq_true, beq_iff_eq, List.length_eq_zero]
      constructor
      · exact fun h => Or.inr (Or.inr h)
      · rintro (h | h | h)
        · exact absurd h h1
        · rcases h with h | h | h <;> simp_all
        · exact h
  refine ⟨hiff, fun h => hiff.mpr (Or.inl h), fun he hs hu1 hu2 hu3 => ?_⟩
  cases hfs : isFormSubmitted p
  · rfl
  · rcases hiff.mp hfs with h | h | h
    · omega
    · rcases h with h | h | h <;> simp_all
    · exact absurd h.1 he

/-- Closed instance of c2_isFormSubmitted_iff: a page with a success
indicator but errors still detected counts as submitted. -/
theorem c2_isFormSubmitted_witness :
    isFormSubmitted ⟨1, jstr "https://example.com/form", [dupDemo1], 1⟩ = true :=
  (c2_isFormSubmitted_iff ⟨1, jstr "https://example.com/form", [dupDemo1], 1⟩).2.1
    (by decide)

/-- A checkable input element: its checked state and whether it is a radio
button.  Clicking a radio always leaves it checked; clicking a checkbox
toggles it. -/
structure CheckableElement where
  checked : Bool
  isRadio : Bool

/-- DOM click semantics on a checkbox or radio input. -/
def clickCheckable (e : CheckableElement) : CheckableElement :=
  { e with checked := if e.isRadio then true else !e.checked }

/-- The truthy value tokens of fillCheckboxRadioField. -/
def truthyTokens : List JSString :=
  [jstr "true", jstr "yes", jstr "1", jstr "on", jstr "checked"]

/-- Desired checked state for a checkbox/radio value token. -/
def shouldCheck (value : JSString) : Bool := truthyTokens.contains (jsToLower value)

/-- FormProcessingService.fillCheckboxRadioField: read the current checked
state and click only when it differs from the desired boolean.  The second
component records whether a click was performed. -/
def fillCheckboxRadioField (e : CheckableElement) (value : JSString) :
    CheckableElement × Bool :=
  if shouldCheck value != e.checked then (clickCheckable e, true) else (e, false)

/-- Claim C8: filling a checkbox/radio clicks exactly when the current
checked state differs from the desired boolean, and filling twice in a row
with the same truthy value performs no click on the second call. -/
theorem c8_fillCheckboxRadio_idempotent (e : CheckableElement) (v : JSString) :
    ((fillCheckboxRadioField e v).2 = true ↔ shouldCheck v ≠ e.checked) ∧
    (shouldCheck v = true →
      (fillCheckboxRadioField (fillCheckboxRadioField e v).1 v).2 = false) := by
  obtain ⟨chk, rad⟩ := e
  constructor
  · by_cases h : shouldCheck v = chk <;> simp [fillCheckboxRadioField, h]
  · intro ht
    cases chk <;> cases rad <;>
      simp [fillCheckboxRadioField, clickCheckable, ht]

/-- Closed instance of c8_fillCheckboxRadio_idempotent: filling an
unchecked checkbox twice with the token yes clicks the first time only. -/
theorem c8_fillCheckboxRadio_witness :
    (fillCheckboxRadioField (fillCheckboxRadioField ⟨false, false⟩ (jstr "yes")).1
      (jstr "yes")).2 = false :=
  (c8_fillCheckboxRadio_idempotent ⟨false, false⟩ (jstr "yes")).2 (by decide)

/-- The cancellation sentinel keywords of
FormProcessingService.isUserCancellation (both revisions). -/
def cancelKeywords : List JSString :=
  [jstr "quit", jstr "exit", jstr "cancel", jstr "abort", jstr "stop"]

/-- FormProcessingService.isUserCancellation: membership of the lowercased,
trimmed input in the sentinel list. -/
def isUserCancellation (input : JSString) : Bool :=
  cancelKeywords.contains (jsTrim (jsToLower input))

/-- Result record of the per-field validators ({isValid, message}). -/
structure ValidationResult where
  isValid : Bool
  message : JSString := []
  deriving DecidableEq

/-- Outcome of running the per-field answer acceptance loop on the
sequence of answers supplied by the human channel.  Cancellation is a
distinct constructor from any accepted or failed state. -/
inductive CollectOutcome where
  | cancelled : CollectOutcome
  | accepted : JSString → CollectOutcome
  | pending : CollectOutcome
  deriving DecidableEq

/-- The do/while answer acceptance loop of collectInitialResponses for a
single field, parameterized by the validation used for the field and fed
the successive answers read from the human channel: a cancellation
sentinel aborts with the cancellation outcome, an invalid answer
re-prompts, a valid answer is accepted after sanitizing. -/
def collectOneField (validate : JSString → ValidationResult) :
    List JSString → CollectOutcome
  | [] => .pending
  | a :: rest =>
    if isUserCancellation a then .cancelled
    else
      let s := sanitizeInput a
      if (validate s).isValid then .accepted s
      else collectOneField validate rest

/-- Boolean result of handleValidationErrors as a function of the
successive correction answers: false (abort the retry loop) exactly when a
cancellation sentinel is read, true after all errors are processed. -/
def handleCorrections : List JSString → Bool
  | [] => true
  | a :: rest => if isUserCancellation a then false else handleCorrections rest

lemma collectOneField_no_cancel (validate : JSString → ValidationResult) :
    ∀ (answers : List JSString), (∀ b ∈ answers, isUserCancellation b = false) →
    collectOneField validate answers ≠ CollectOutcome.cancelled
  | [], _ => by simp [collectOneField]
  | a :: rest, h => by
    have ha := h a (List.mem_cons_self _ _)
    simp only [collectOneField, ha, Bool.false_eq_true, if_false]
    split
    · simp
    · exact collectOneField_no_cancel validate rest
        (fun b hb => h b (List.mem_cons_of_mem _ hb))

lemma handleCorrections_no_cancel :
    ∀ (answers : List JSString), (∀ b ∈ answers, isUserCancellation b = false) →
    handleCorrections answers = true
  | [], _ => by simp [handleCorrections]
  | a :: rest, h => by
    have ha := h a (List.mem_cons_self _ _)
    simp only [handleCorrections, ha, Bool.false_eq_true, if_false]
    exact handleCorrections_no_cancel rest (fun b hb => h b (List.mem_cons_of_mem _ hb))

/-- Claim C4: an answer is treated as a cancellation exactly when its
trimmed lowercased form is quit, exit, cancel, abort or stop; a sentinel
at any prompt aborts the collection pass with the cancellation outcome and
aborts the correction pass with the abort result; and no other input ever
produces the cancellation outcome. -/
theorem c4_cancellation_sentinels (a : JSString) (rest : List JSString)
    (validate : JSString → ValidationResult) :
    (isUserCancellation a = true ↔
      (jsTrim (jsToLower a) = jstr "quit" ∨ jsTrim (jsToLower a) = jstr "exit" ∨
       jsTrim (jsToLower a) = jstr "cancel" ∨ jsTrim (jsToLower a) = jstr "abort" ∨
       jsTrim (jsToLower a) = jstr "stop")) ∧
    (isUserCancellation a = true →
      collectOneField validate (a :: rest) = CollectOutcome.cancelled) ∧
    ((∀ b ∈ a :: rest, isUserCancellation b = false) →
      collectOneField validate (a :: rest) ≠ CollectOutcome.cancelled) ∧
    (isUserCancellation a = true → handleCorrections (a :: rest) = false) ∧
    ((∀ b ∈ a :: rest, isUserCancellation b = false) →
      handleCorrections (a :: rest) = true) := by
  refine ⟨?_, ?_, collectOneField_no_cancel validate (a :: rest), ?_,
    handleCorrections_no_cancel (a :: rest)⟩
  · simp only [isUserCancellation, cancelKeywords, List.elem_iff,
      List.mem_cons, List.not_mem_nil, or_false]
  · intro h
    simp [collectOneField, h]
  · intro h
    simp [handleCorrections, h]

/-- Closed instance of c4_cancellation_sentinels: the answer QUIT with
surrounding whitespace cancels the collection of a field even after an
earlier invalid answer. -/
theorem c4_cancellation_witness :
    collectOneField (fun _ => ⟨false, []⟩) [jstr " QUIT "]
      = CollectOutcome.cancelled :=
  (c4_cancellation_sentinels (jstr " QUIT ") [] (fun _ => ⟨false, []⟩)).2.1 (by decide)

/-- Environment observed by the submit/retry loop: for the attempt
numbered n (counting from 1), whether waitForSubmissionResult reported the
form submitted, which validation errors detectValidationErrors returned,
and whether the correction round after attempt n completed without the
user cancelling. -/
structure SubmitEnv where
  submitted : Nat → Bool
  errors : Nat → List VError
  correctionOk : Nat → Bool

/-- Observable result of the submit/retry loop: the returned boolean, the
number of submit attempts performed, the number of correction rounds
entered, and the error list detected on the final attempt. -/
structure LoopResult where
  success : Bool
  attempts : Nat
  correctionRounds : Nat
  lastErrors : List VError
  deriving DecidableEq

/-- The fixed retry bound (private maxRetries = 3). -/
def maxRetries : Nat := 3

/-- Translation of the while loop shared by submitWithValidationHandling
and submitWithEnhancedValidationHandling.  Every iteration increments the
attempt counter, and the loop exits once it reaches maxRetries, so
maxRetries units of fuel reproduce the loop exactly.  ambiguousSuccess is
the value returned on the branch where the form is not submitted and zero
validation errors are detected: false in FromProcessingService.ts (both
variants), true in the part_009 revision of the enhanced variant. -/
def submitLoopGo (env : SubmitEnv) (ambiguousSuccess : Bool) :
    Nat → Nat → Nat → LoopResult
  | 0, attempt, rounds => ⟨false, attempt, rounds, []⟩
  | fuel + 1, attempt, rounds =>
    if attempt < maxRetries then
      if env.submitted (attempt + 1) then ⟨true, attempt + 1, rounds, []⟩
      else if (env.errors (attempt + 1)).length = 0 then
        ⟨ambiguousSuccess, attempt + 1, rounds, env.errors (attempt + 1)⟩
      else if attempt + 1 < maxRetries then
        if env.correctionOk (attempt + 1) then
          submitLoopGo env ambiguousSuccess fuel (attempt + 1) (rounds + 1)
        else ⟨false, attempt + 1, rounds + 1, env.errors (attempt + 1)⟩
      else ⟨false, attempt + 1, rounds, env.errors (attempt + 1)⟩
    else ⟨false, attempt, rounds, []⟩

/-- FromProcessingService.ts submitWithValidationHandling (its enhanced
variant in the same file behaves identically here): the ambiguous outcome
returns false. -/
def submitWithValidationHandling (env : SubmitEnv) : LoopResult :=
  submitLoopGo env false maxRetries 0 0

/-- The part_009 revision of submitWithEnhancedValidationHandling: on the
ambiguous outcome it prints that the form appears to have been submitted
and returns true. -/
def part009SubmitEnhanced (env : SubmitEnv) : LoopResult :=
  submitLoopGo env true maxRetries 0 0

/-- Environment in which no attempt reports the form submitted and the
detector never finds an error: the ambiguous outcome. -/
def ambiguousEnv : SubmitEnv := ⟨fun _ => false, fun _ => [], fun _ => true⟩

/-- Claim C1 is false as stated for the part_009 revision it cites: on an
attempt where isSubmitted reports false and the detector returns an empty
error list, that revision of the loop terminates with a success outcome
(true), not a failure. -/
theorem c1_counterexample :
    (part009SubmitEnhanced ambiguousEnv).success = true ∧
    ambiguousEnv.submitted 1 = false ∧ ambiguousEnv.errors 1 = [] := by
  refine ⟨rfl, rfl, rfl⟩

lemma submitLoopGo_success_requires_submitted (env : SubmitEnv) :
    ∀ (fuel attempt rounds : Nat),
    (submitLoopGo env false fuel attempt rounds).success = true →
    ∃ a, attempt < a ∧ a ≤ maxRetries ∧ env.submitted a = true
  | 0, attempt, rounds, h => by simp [submitLoopGo] at h
  | fuel + 1, attempt, rounds, h => by
    by_cases hlt : attempt < maxRetries
    · by_cases hsub : env.submitted (attempt + 1) = true
      · exact ⟨attempt + 1, Nat.lt_succ_self _, hlt, hsub⟩
      · by_cases herr : (env.errors (attempt + 1)).length = 0
        · simp [submitLoopGo, hlt, hsub, herr] at h
        · by_cases hlt2 : attempt + 1 < maxRetries
          · by_cases hok : env.correctionOk (attempt + 1) = true
            · simp only [submitLoopGo, hlt, if_true, hsub, Bool.false_eq_true, if_false,
                herr, hlt2, hok] at h
              obtain ⟨a, h1, h2, h3⟩ :=
                submitLoopGo_success_requires_submitted env fuel (attempt + 1) (rounds + 1) h
              exact ⟨a, Nat.lt_of_succ_lt h1, h2, h3⟩
            · simp [submitLoopGo, hlt, hsub, herr, hlt2, hok] at h
          · simp [submitLoopGo, hlt, hsub, herr, hlt2] at h
    · simp [submitLoopGo, hlt] at h

/-- Claim C1 amended: in the FromProcessingService.ts loop the claim holds
in the strong form that a success outcome requires some attempt whose
isSubmitted check reported true; hence whenever every attempt reports
not-submitted (in particular on the ambiguous zero-error outcome) the loop
returns false.  In the part_009 revision the ambiguous outcome instead
returns true (see the counterexample). -/
theorem c1_ambiguous_outcome_failure (env : SubmitEnv)
    (h : (submitWithValidationHandling env).success = true) :
    ∃ a, 1 ≤ a ∧ a ≤ maxRetries ∧ env.submitted a = true := by
  obtain ⟨a, h1, h2, h3⟩ :=
    submitLoopGo_success_requires_submitted env maxRetries 0 0 h
  exact ⟨a, h1, h2, h3⟩

/-- Environment whose first submit attempt succeeds. -/
def submitOkEnv : SubmitEnv := ⟨fun _ => true, fun _ => [], fun _ => true⟩

/-- Closed instance of c1_ambiguous_outcome_failure at an environment
whose first attempt submits successfully. -/
theorem c1_ambiguous_outcome_failure_witness :
    ∃ a, 1 ≤ a ∧ a ≤ maxRetries ∧ submitOkEnv.submitted a = true :=
  c1_ambiguous_outcome_failure submitOkEnv rfl

/-- Claim C3: when every attempt reports not-submitted with a non-empty
error list and no correction round is cancelled, both loop variants
perform exactly 3 submit attempts and 2 correction rounds and return
false carrying the error set detected on the third attempt. -/
theorem c3_retry_exhaustion (env : SubmitEnv)
    (hsub : ∀ n, env.submitted n = false)
    (herr : ∀ n, env.errors n ≠ [])
    (hok : ∀ n, env.correctionOk n = true) :
    submitWithValidationHandling env =
      ⟨false, 3, 2, env.errors 3⟩ ∧
    part009SubmitEnhanced env = ⟨false, 3, 2, env.errors 3⟩ := by
  have hlen : ∀ n, ¬(env.errors n).length = 0 := by
    intro n
    simpa [List.length_eq_zero] using herr n
  have hgo : ∀ amb, submitLoopGo env amb 3 0 0 = ⟨false, 3, 2, env.errors 3⟩ := by
    intro amb
    simp [submitLoopGo, hsub 1, hsub 2, hsub 3, hlen 1, hlen 2, hlen 3,
      hok 1, hok 2, maxRetries]
  exact ⟨hgo false, hgo true⟩

/-- A demonstration validation error for the retry environment. -/
def retryDemoError : VError :=
  ⟨jstr "email", jstr "Email", jstr "This field is required", jstr "input", jstr ""⟩

/-- Environment in which every attempt fails with one detected error. -/
def retryEnv : SubmitEnv :=
  ⟨fun _ => false, fun _ => [retryDemoError], fun _ => true⟩

/-- Closed instance of c3_retry_exhaustion at the always-failing
environment. -/
theorem c3_retry_exhaustion_witness :
    submitWithValidationHandling retryEnv = ⟨false, 3, 2, [retryDemoError]⟩ :=
  (c3_retry_exhaustion retryEnv (fun _ => rfl)
    (fun _ => by simp [retryEnv]) (fun _ => rfl)).1

/-- Decimal digit code point. -/
def isDecDigit (n : Nat) : Bool := decide (48 ≤ n) && decide (n ≤ 57)

/-- Hexadecimal digit code point. -/
def isHexDigit (n : Nat) : Bool :=
  isDecDigit n || (decide (97 ≤ n) && decide (n ≤ 102)) ||
  (decide (65 ≤ n) && decide (n ≤ 70))

/-- Numeric value of a digit code point. -/
def digitValue (n : Nat) : Nat :=
  if n ≤ 57 then n - 48 else if n ≤ 70 then n - 55 else n - 87

/-- Horner accumulation of a digit list in the given base. -/
def digitsToNat (base : Nat) (l : JSString) : Nat :=
  l.foldl (fun acc d => acc * base + digitValue d) 0

/-- Model of the ECMAScript parseInt applied with no radix argument: skip
leading whitespace, read an optional sign, detect a 0x or 0X prefix
(hexadecimal), convert the longest prefix of digits of the selected base,
and yield NaN (none) when no digit is present. -/
def jsParseInt (s : JSString) : Option Int :=
  let s1 := s.dropWhile isJsWhitespace
  let sgn : Int := if s1.head? = some 45 then -1 else 1
  let s2 := if s1.head? = some 45 ∨ s1.head? = some 43 then s1.tail else s1
  let hex : Bool :=
    match s2 with
    | 48 :: 120 :: _ => true
    | 48 :: 88 :: _ => true
    | _ => false
  let s3 := if hex then s2.tail.tail else s2
  let digs := s3.takeWhile (if hex then isHexDigit else isDecDigit)
  if digs = [] then none
  else some (sgn * Int.ofNat (digitsToNat (if hex then 16 else 10) digs))

/-- A discovered form field descriptor, with the constraint attributes the
part_009 validators read. -/
structure FormField where
  label : JSString
  selector : JSString
  type : JSString
  required : Bool
  placeholder : JSString := []
  options : List JSString := []
  min : Option Int := none
  max : Option Int := none
  minLength : Option Nat := none
  maxLength : Option Nat := none

/-- Decimal rendering of a number, for interpolated messages. -/
def natToJS (n : Nat) : JSString := jstr (toString n)

/-- The bidirectional case-insensitive containment test used when matching
a dropdown answer against an option: the option contains the answer or the
answer contains the option. -/
def dropdownMatch (answer option : JSString) : Bool :=
  jsIncludes (jsToLower option) (jsToLower answer) ||
  jsIncludes (jsToLower answer) (jsToLower option)

/-- The options.find call of validateDropdownAnswer and of the resolution
step in collectInitialResponses. -/
def findMatchingOption (answer : JSString) (options : List JSString) :
    Option JSString :=
  options.find? (dropdownMatch answer)

/-- Whether parseInt produced an in-range 1-based index. -/
def isInRangeIndex (r : Option Int) (len : Nat) : Bool :=
  match r with
  | some k => decide (1 ≤ k) && decide (k ≤ (len : Int))
  | none => false

/-- part_009 FormProcessingService.validateDropdownAnswer. -/
def validateDropdownAnswer (answer : JSString) (options : List JSString)
    (field : FormField) : ValidationResult :=
  if field.required && (jsTrim answer).isEmpty then
    ⟨false, jstr "This field is required. Please select an option."⟩
  else if (jsTrim answer).isEmpty then ⟨true, []⟩
  else if isInRangeIndex (jsParseInt (jsTrim answer)) options.length then ⟨true, []⟩
  else if (findMatchingOption answer options).isSome then ⟨true, []⟩
  else
    ⟨false, jstr "Please select from the available options or enter a number 1-" ++
      natToJS options.length ++ jstr "."⟩

/-- The answer resolution step of part_009 collectInitialResponses for an
option-bearing field: an in-range 1-based index selects that option,
otherwise the first option related to the answer by bidirectional
containment replaces the answer, otherwise the answer is kept as typed. -/
def resolveDropdownAnswer (answer : JSString) (options : List JSString) : JSString :=
  match jsParseInt answer with
  | some k =>
    if 1 ≤ k ∧ k ≤ (options.length : Int) then options.getD (k - 1).toNat []
    else
      match findMatchingOption answer options with
      | some o => o
      | none => answer
  | none =>
    match findMatchingOption answer options with
    | some o => o
    | none => answer

/-- The demonstration options of the spec example. -/
def rgbOptions : List JSString := [jstr "Red", jstr "Green", jstr "Blue"]

/-- A demonstration dropdown field. -/
def rgbField : FormField :=
  { label := jstr "Color", selector := jstr "#color", type := jstr "select",
    required := true }

/-- Claim C5 is false as stated: the answer Greenish is not an in-range
index and is not a substring of any option, yet it is accepted and
resolved to Green, because the matching also accepts an option that is a
substring of the answer. -/
theorem c5_counterexample :
    (validateDropdownAnswer (jstr "Greenish") rgbOptions rgbField).isValid = true ∧
    resolveDropdownAnswer (jstr "Greenish") rgbOptions = jstr "Green" ∧
    jsParseInt (jsTrim (jstr "Greenish")) = none ∧
    (∀ o ∈ rgbOptions, jsIncludes (jsToLower o) (jsToLower (jstr "Greenish")) = false) := by
  decide

lemma findMatchingOption_isSome_iff (a : JSString) (O : List JSString) :
    (findMatchingOption a O).isSome = true ↔ ∃ o ∈ O, dropdownMatch a o = true := by
  unfold findMatchingOption
  rw [List.find?_isSome]

/-- Claim C5 amended: for a sanitized nonempty answer, acceptance holds
exactly when parseInt yields an in-range 1-based index or some option is
related to the answer by case-insensitive containment in either direction;
an in-range index k resolves to the option at position k-1; otherwise the
first containment-related option is the resolution; a rejected answer
carries the message naming the valid 1 to N range. -/
theorem c5_dropdown_validation_resolution (a : JSString) (O : List JSString)
    (f : FormField) (hs : jsTrim a = a) (hne : a ≠ []) :
    ((validateDropdownAnswer a O f).isValid = true ↔
      isInRangeIndex (jsParseInt a) O.length = true ∨
        ∃ o ∈ O, dropdownMatch a o = true) ∧
    (∀ k : Int, jsParseInt a = some k → 1 ≤ k → k ≤ (O.length : Int) →
      resolveDropdownAnswer a O = O.getD (k - 1).toNat []) ∧
    (∀ o : JSString, isInRangeIndex (jsParseInt a) O.length = false →
      findMatchingOption a O = some o →
      resolveDropdownAnswer a O = o ∧ o ∈ O ∧ dropdownMatch a o = true) ∧
    ((validateDropdownAnswer a O f).isValid = false →
      (validateDropdownAnswer a O f).message =
        jstr "Please select from the available options or enter a number 1-" ++
          natToJS O.length ++ jstr ".") := by
  have hemp : (jsTrim a).isEmpty = false := by
    rw [hs]
    cases a with
    | nil => exact absurd rfl hne
    | cons x t => rfl
  refine ⟨?_, ?_, ?_, ?_⟩
  · unfold validateDropdownAnswer
    rw [hs] at hemp ⊢
    simp only [hemp, Bool.and_false, Bool.false_eq_true, if_false]
    by_cases hidx : isInRangeIndex (jsParseInt a) O.length = true
    · simp [hidx]
    · simp only [hidx, Bool.false_eq_true, if_false]
      rw [← findMatchingOption_isSome_iff a O]
      by_cases hfind : (findMatchingOption a O).isSome = true
      · simp [hfind, hidx]
      · simp [hfind, hidx]
  · intro k hk h1 h2
    unfold resolveDropdownAnswer
    rw [hk]
    dsimp only
    rw [if_pos ⟨h1, h2⟩]
  · intro o hidx hf
    have hmem := List.mem_of_find?_eq_some hf
    have hmatch := List.find?_some hf
    refine ⟨?_, hmem, hmatch⟩
    unfold resolveDropdownAnswer
    cases hk : jsParseInt a with
    | none =>
      dsimp only
      rw [hf]
    | some k =>
      rw [hk] at hidx
      simp only [isInRangeIndex, Bool.and_eq_false_iff, decide_eq_false_iff_not,
        not_le] at hidx
      dsimp only
      rw [if_neg (by omega : ¬(1 ≤ k ∧ k ≤ (O.length : Int))), hf]
  · intro hinv
    unfold validateDropdownAnswer at hinv ⊢
    rw [hs] at hinv ⊢
    have hemp2 : a.isEmpty = false := by rwa [hs] at hemp
    simp only [hemp2, Bool.and_false, Bool.false_eq_true, if_false] at hinv ⊢
    by_cases hidx : isInRangeIndex (jsParseInt a) O.length = true
    · simp [hidx] at hinv
    · simp only [hidx, Bool.false_eq_true, if_false] at hinv ⊢
      by_cases hfind : (findMatchingOption a O).isSome = true
      · simp [hfind] at hinv
      · simp [hfind]

/-- Closed instance of c5_dropdown_validation_resolution: the index answer
2 resolves to the second of the demonstration options. -/
theorem c5_dropdown_witness :
    resolveDropdownAnswer (jstr "2") rgbOptions = rgbOptions.getD 1 [] :=
  (c5_dropdown_validation_resolution (jstr "2") rgbOptions rgbField (by decide)
      (by decide)).2.1 2 (by decide) (by decide) (by decide)

/-- Shape test of the anchored date regular expression: four digits,
hyphen, two digits, hyphen, two digits, and nothing else. -/
def dateShape : JSString → Bool
  | [a, b, c, d, e, f, g, h, i, j] =>
    isDecDigit a && isDecDigit b && isDecDigit c && isDecDigit d &&
    e == 45 && isDecDigit f && isDecDigit g && h == 45 &&
    isDecDigit i && isDecDigit j
  | _ => false

/-- Year, month and day read from a string matching dateShape. -/
def dateParse : JSString → Int × Int × Int
  | [a, b, c, d, _, f, g, _, i, j] =>
    (Int.ofNat ((a - 48) * 1000 + (b - 48) * 100 + (c - 48) * 10 + (d - 48)),
     Int.ofNat ((f - 48) * 10 + (g - 48)),
     Int.ofNat ((i - 48) * 10 + (j - 48)))
  | _ => (0, 0, 0)

/-- Finite-time-value test of new Date on a string already matching the
date shape: per the ECMAScript Date Time String Format (and the V8
parser used by the runtime), a month from 01 to 12 and a day from 01 to
31 produce a finite time value, with a day beyond the end of the month
rolling over into the following month via MakeDay; any other month or day
yields NaN. -/
def jsDateShapeValid (m d : Int) : Bool :=
  decide (1 ≤ m) && decide (m ≤ 12) && decide (1 ≤ d) && decide (d ≤ 31)

/-- Signed day count from the epoch 1970-01-01 to the civil date, for a
month from 1 to 12; the day argument extends linearly past the end of the
month, matching the MakeDay rollover of ECMAScript. -/
def daysFromCivil (y m d : Int) : Int :=
  let y2 := if m ≤ 2 then y - 1 else y
  let era := Int.fdiv y2 400
  let yoe := y2 - era * 400
  let mp := Int.emod (m + 9) 12
  let doy := Int.fdiv (153 * mp + 2) 5 + d - 1
  let doe := yoe * 365 + Int.fdiv yoe 4 - Int.fdiv yoe 100 + doy
  era * 146097 + doe - 719468

/-- Millisecond time value of a date-only string, interpreted as UTC
midnight. -/
def jsDateMs (y m d : Int) : Int := daysFromCivil y m d * 86400000

/-- Decimal rendering of an integer, for interpolated messages. -/
def intToJS (i : Int) : JSString := jstr (toString i)

/-- The max-bound comparison at the end of the date branch: the bound
participates only when truthy, and new Date(number) reads it as a
millisecond timestamp. -/
def dateMaxCheck (field : FormField) (ymd : Int × Int × Int) : ValidationResult :=
  match field.max with
  | some mx =>
    if mx ≠ 0 ∧ mx < jsDateMs ymd.1 ymd.2.1 ymd.2.2 then
      ⟨false, jstr "Date must be on or before " ++ intToJS mx ++ jstr "."⟩
    else ⟨true, []⟩
  | none => ⟨true, []⟩

/-- The min-bound comparison of the date branch, falling through to the
max-bound comparison. -/
def dateMinCheck (field : FormField) (ymd : Int × Int × Int) : ValidationResult :=
  match field.min with
  | some mn =>
    if mn ≠ 0 ∧ jsDateMs ymd.1 ymd.2.1 ymd.2.2 < mn then
      ⟨false, jstr "Date must be on or after " ++ intToJS mn ++ jstr "."⟩
    else dateMaxCheck field ymd
  | none => dateMaxCheck field ymd

/-- The date path of part_009 FormProcessingService.validateFieldInput:
required-and-empty rejection, acceptance of an empty optional answer, the
format test, the NaN test of new Date, then the optional bound checks. -/
def validateDateField (field : FormField) (input : JSString) : ValidationResult :=
  if field.required && (jsTrim input).isEmpty then
    ⟨false, jstr "This field is required. Please provide a value."⟩
  else if (jsTrim input).isEmpty && !field.required then ⟨true, []⟩
  else if !(dateShape input) then
    ⟨false, jstr "Please use format: YYYY-MM-DD (e.g., 2024-03-15)"⟩
  else if !(jsDateShapeValid (dateParse input).2.1 (dateParse input).2.2) then
    ⟨false, jstr "Please provide a valid date."⟩
  else dateMinCheck field (dateParse input)

/-- Calendar validity, following the words of the claim: month from 1 to
12 and day from 1 to the length of that month, with leap years. -/
def isLeapYear (y : Int) : Bool :=
  (Int.emod y 4 == 0 && !(Int.emod y 100 == 0)) || Int.emod y 400 == 0

/-- Number of days of a month, following the words of the claim. -/
def daysInMonth (y m : Int) : Int :=
  if m = 2 then (if isLeapYear y then 29 else 28)
  else if m = 4 ∨ m = 6 ∨ m = 9 ∨ m = 11 then 30
  else 31

/-- Spec-side calendar-validity predicate from the words of the claim. -/
def calendarValidDate (y m d : Int) : Bool :=
  decide (1 ≤ m) && decide (m ≤ 12) && decide (1 ≤ d) &&
  decide (d ≤ daysInMonth y m)

/-- A demonstration date field with no declared bounds. -/
def dateFieldDemo : FormField :=
  { label := jstr "Date", selector := jstr "#date", type := jstr "date",
    required := true }

/-- Claim C6 is false as stated: the input 2024-02-30 matches the format
but is not a calendar-valid date (February 2024 ends on the 29th), yet
local validation accepts it, because the runtime date parser rolls the
out-of-range day over into March instead of reporting NaN. -/
theorem c6_counterexample :
    (validateDateField dateFieldDemo (jstr "2024-02-30")).isValid = true ∧
    calendarValidDate 2024 2 30 = false ∧
    dateShape (jstr "2024-02-30") = true := by decide

/-- The truthy-min-bound test as a standalone boolean. -/
def minBoundOk (f : FormField) (y m d : Int) : Bool :=
  match f.min with
  | none => true
  | some mn => !(decide (mn ≠ 0 ∧ jsDateMs y m d < mn))

/-- The truthy-max-bound test as a standalone boolean. -/
def maxBoundOk (f : FormField) (y m d : Int) : Bool :=
  match f.max with
  | none => true
  | some mx => !(decide (mx ≠ 0 ∧ mx < jsDateMs y m d))

/-- Claim C6 amended: for a nonempty trimmed input, the date validator
accepts exactly the strings of the shape YYYY-MM-DD whose month lies in 01
to 12 and whose day lies in 01 to 31 (day-in-month overflow rolls over
rather than being rejected) and which satisfy the truthy min and max
millisecond bounds when those are declared. -/
theorem c6_date_validation (f : FormField) (s : JSString)
    (hne : (jsTrim s).isEmpty = false) :
    (validateDateField f s).isValid = true ↔
      dateShape s = true ∧
      (1 ≤ (dateParse s).2.1 ∧ (dateParse s).2.1 ≤ 12 ∧
        1 ≤ (dateParse s).2.2 ∧ (dateParse s).2.2 ≤ 31) ∧
      minBoundOk f (dateParse s).1 (dateParse s).2.1 (dateParse s).2.2 = true ∧
      maxBoundOk f (dateParse s).1 (dateParse s).2.1 (dateParse s).2.2 = true := by
  unfold validateDateField
  simp only [hne, Bool.and_false, Bool.false_and, Bool.false_eq_true, if_false]
  by_cases hshape : dateShape s = true
  · simp only [hshape, Bool.not_true, Bool.false_eq_true, if_false, true_and]
    by_cases hval : jsDateShapeValid (dateParse s).2.1 (dateParse s).2.2 = true
    · have hval2 : 1 ≤ (dateParse s).2.1 ∧ (dateParse s).2.1 ≤ 12 ∧
          1 ≤ (dateParse s).2.2 ∧ (dateParse s).2.2 ≤ 31 := by
        simpa [jsDateShapeValid, and_assoc] using hval
      simp only [hval, Bool.not_true, Bool.false_eq_true, if_false, hval2, true_and]
      unfold dateMinCheck dateMaxCheck minBoundOk maxBoundOk
      rcases hmin : f.min with _ | mn <;> rcases hmax : f.max with _ | mx
      · simp
      · by_cases hcmx : mx ≠ 0 ∧ mx < jsDateMs (dateParse s).1 (dateParse s).2.1 (dateParse s).2.2
        · simp [hcmx]
        · simp [hcmx]
      · by_cases hcmn : mn ≠ 0 ∧ jsDateMs (dateParse s).1 (dateParse s).2.1 (dateParse s).2.2 < mn
        · simp [hcmn]
        · simp [hcmn]
      · by_cases hcmn : mn ≠ 0 ∧ jsDateMs (dateParse s).1 (dateParse s).2.1 (dateParse s).2.2 < mn
        · simp [hcmn]
        · by_cases hcmx : mx ≠ 0 ∧ mx < jsDateMs (dateParse s).1 (dateParse s).2.1 (dateParse s).2.2
          · simp [hcmn, hcmx]
          · simp [hcmn, hcmx]
    · have hval2 : ¬(1 ≤ (dateParse s).2.1 ∧ (dateParse s).2.1 ≤ 12 ∧
          1 ≤ (dateParse s).2.2 ∧ (dateParse s).2.2 ≤ 31) := by
        intro hc
        exact hval (by simp [jsDateShapeValid, and_assoc]; tauto)
      simp [hval, hval2]
  · simp [hshape]

/-- Closed instance of c6_date_validation: 2024-03-15 is accepted. -/
theorem c6_date_validation_witness :
    (validateDateField dateFieldDemo (jstr "2024-03-15")).isValid = true :=
  (c6_date_validation dateFieldDemo (jstr "2024-03-15") (by decide)).mpr (by decide)

/-- A JavaScript Map of strings, as its insertion-ordered entry list. -/
abbrev EntryMap := List (JSString × JSString)

/-- Map.prototype.get. -/
def mapGet (m : EntryMap) (k : JSString) : Option JSString :=
  match m.find? (fun e => e.1 == k) with
  | some e => some e.2
  | none => none

/-- Map.prototype.set: overwrite the entry in place when the key exists,
else append a new entry at the end. -/
def mapSet (m : EntryMap) (k v : JSString) : EntryMap :=
  match m with
  | [] => [(k, v)]
  | (k2, v2) :: rest =>
    if k2 == k then (k2, v) :: rest else (k2, v2) :: mapSet rest k v

/-- Map.prototype.delete (dropping the first entry with the key). -/
def mapDelete (m : EntryMap) (k : JSString) : EntryMap :=
  match m with
  | [] => []
  | (k2, v2) :: rest => if k2 == k then rest else (k2, v2) :: mapDelete rest k

/-- A mutation a caller can apply to a returned Map object. -/
inductive MapMutation where
  | set (k v : JSString) : MapMutation
  | del (k : JSString) : MapMutation
  | clear : MapMutation

/-- Application of one mutation to the contents of a Map object. -/
def applyMapMutation (m : EntryMap) : MapMutation → EntryMap
  | .set k v => mapSet m k v
  | .del k => mapDelete m k
  | .clear => []

/-- A heap of Map objects: the next fresh address and an address-indexed
store.  The service retains the address of its private
userResponseCache. -/
structure Heap where
  next : Nat
  store : List (Nat × EntryMap)

/-- Contents of the Map object at an address. -/
def heapGet (h : Heap) (r : Nat) : EntryMap :=
  match h.store.find? (fun e => e.1 == r) with
  | some e => e.2
  | none => []

/-- Overwrite the Map object at an address. -/
def heapWrite (h : Heap) (r : Nat) (m : EntryMap) : Heap :=
  { h with store := (r, m) :: h.store }

/-- Allocate a fresh Map object holding the given entries. -/
def heapAlloc (h : Heap) (m : EntryMap) : Heap × Nat :=
  (⟨h.next + 1, (h.next, m) :: h.store⟩, h.next)

/-- FormProcessingService.getCachedResponses: allocate and return
new Map(this.userResponseCache), a fresh object holding a copy of the
entries of the private cache at address svc. -/
def getCachedResponses (h : Heap) (svc : Nat) : Heap × Nat :=
  heapAlloc h (heapGet h svc)

/-- Apply a sequence of caller mutations to the Map object at address r. -/
def mutateAt (r : Nat) (h : Heap) : List MapMutation → Heap
  | [] => h
  | mu :: rest => mutateAt r (heapWrite h r (applyMapMutation (heapGet h r) mu)) rest

lemma heapGet_write_ne (h : Heap) (r : Nat) (m : EntryMap) (svc : Nat)
    (hne : svc ≠ r) : heapGet (heapWrite h r m) svc = heapGet h svc := by
  unfold heapGet heapWrite
  rw [List.find?_cons_of_neg]
  simpa using fun hc => hne hc.symm

lemma heapGet_write_eq (h : Heap) (r : Nat) (m : EntryMap) :
    heapGet (heapWrite h r m) r = m := by
  unfold heapGet heapWrite
  rw [List.find?_cons_of_pos _ (by simp)]

lemma mutateAt_frame (r svc : Nat) (hne : svc ≠ r) :
    ∀ (ms : List MapMutation) (h : Heap), heapGet (mutateAt r h ms) svc = heapGet h svc
  | [], h => rfl
  | mu :: rest, h => by
    unfold mutateAt
    rw [mutateAt_frame r svc hne rest _]
    exact heapGet_write_ne _ _ _ _ hne

/-- Claim C10: getCachedResponses returns a fresh Map whose entries (and
hence every key lookup) agree with the internal cache, and any sequence of
mutations a caller applies to the returned Map leaves the internal cache
unchanged. -/
theorem c10_getCachedResponses_fresh_copy (h : Heap) (svc : Nat) (hsvc : svc < h.next)
    (ms : List MapMutation) :
    heapGet (getCachedResponses h svc).1 (getCachedResponses h svc).2 = heapGet h svc ∧
    (∀ k, mapGet (heapGet (getCachedResponses h svc).1 (getCachedResponses h svc).2) k =
      mapGet (heapGet (getCachedResponses h svc).1 svc) k) ∧
    heapGet (mutateAt (getCachedResponses h svc).2 (getCachedResponses h svc).1 ms) svc =
      heapGet h svc := by
  have hne : svc ≠ h.next := Nat.ne_of_lt hsvc
  have hcopy : heapGet (getCachedResponses h svc).1 (getCachedResponses h svc).2 =
      heapGet h svc := heapGet_write_eq ⟨h.next + 1, h.store⟩ h.next (heapGet h svc)
  have hold : heapGet (getCachedResponses h svc).1 svc = heapGet h svc :=
    heapGet_write_ne ⟨h.next + 1, h.store⟩ h.next (heapGet h svc) svc hne
  refine ⟨hcopy, fun k => by rw [hcopy, hold], ?_⟩
  rw [show (getCachedResponses h svc).2 = h.next from rfl,
    mutateAt_frame h.next svc hne ms (getCachedResponses h svc).1]
  exact hold

/-- A demonstration heap: one service cache at address 0. -/
def demoHeap : Heap := ⟨1, [(0, [(jstr "name", jstr "Ada")])]⟩

/-- Closed instance of c10_getCachedResponses_fresh_copy: overwriting a
key in the returned Map leaves the service cache unchanged. -/
theorem c10_getCachedResponses_witness :
    heapGet (mutateAt (getCachedResponses demoHeap 0).2 (getCachedResponses demoHeap 0).1
      [MapMutation.set (jstr "name") (jstr "Bob")]) 0 = heapGet demoHeap 0 :=
  (c10_getCachedResponses_fresh_copy demoHeap 0 (by decide)
    [MapMutation.set (jstr "name") (jstr "Bob")]).2.2

end FormAutomation
